import Mathlib

/-
Verification of the dispatch core of metapensiero.signal
(src/metapensiero/signal/atom.py and src/metapensiero/signal/utils.py)
via a shallow embedding in Lean 4.

Python values are modelled by the inductive `Value`; Python exceptions by
`PyErr`; handler signatures (inspect.Signature) by lists of `Param`; the
result of `Signature.bind_partial` by an association list `Binding`.
-/

namespace MPSignal

/-- Python values occurring in the modelled code paths and scenarios. -/
inductive Value where
  | vnone
  | vint (n : Int)
  | vstr (s : String)
  | vbool (b : Bool)
  | vtup (elems : List Value)

/-- Python exceptions relevant to the modelled code paths. `custom n` stands
for an application-level exception raised by a handler body. -/
inductive PyErr where
  | typeError
  | attributeError
  | custom (n : Nat)
deriving DecidableEq

/-- The kinds of `inspect.Parameter`. -/
inductive PKind where
  | posOnly
  | posOrKw
  | varPos
  | kwOnly
  | varKw
deriving DecidableEq

/-- One declared parameter of a handler signature. -/
structure Param where
  name : String
  kind : PKind
  default : Option Value

/-- A handler signature: its parameters in declaration order
(inspect.signature(method).parameters). -/
abbrev Sig := List Param

/-- Keyword arguments of a call: a Python dict, i.e. an ordered association
list with unique keys. -/
abbrev Kwargs := List (String × Value)

/-- A value bound to one parameter: a plain value, the tuple collected by a
`*args` parameter, or the dict collected by a `**kwargs` parameter. -/
inductive BVal where
  | one (v : Value)
  | star (vs : List Value)
  | dstar (kvs : List (String × Value))

/-- The `arguments` mapping of an `inspect.BoundArguments`. -/
abbrev Binding := List (String × BVal)

/-- Names bound in a binding. -/
def bindNames (b : Binding) : List String := b.map Prod.fst

/-- Value bound to a given parameter name, if any. -/
def lookupBVal (b : Binding) (n : String) : Option BVal :=
  (b.find? fun kv => kv.1 == n).map Prod.snd

/-- Whether the signature declares an open-ended keyword capture, i.e.
`any(p.kind == VAR_KEYWORD for p in signature.parameters.values())`. -/
def hasVarKw (sig : Sig) : Bool :=
  sig.any fun p => p.kind == PKind.varKw

/-- Positional phase of `Signature.bind_partial(*args, **kwargs)`: assign the
positional arguments to the leading parameters; a `*args` parameter collects
the excess; a positional argument for a keyword-only or `**kwargs` parameter,
or beyond the last parameter, raises TypeError; a positional-or-keyword
parameter that also appears among the keyword names raises TypeError
(multiple values). Missing parameters are left unbound (partial binding). -/
def bindPos : Sig → List Value → List String → Except PyErr Binding
  | _, [], _ => .ok []
  | [], _ :: _, _ => .error .typeError
  | p :: ps, a :: rest, kwnames =>
    match p.kind with
    | .varPos => .ok [(p.name, BVal.star (a :: rest))]
    | .posOnly => (bindPos ps rest kwnames).map fun b => (p.name, BVal.one a) :: b
    | .posOrKw =>
        if p.name ∈ kwnames then .error .typeError
        else (bindPos ps rest kwnames).map fun b => (p.name, BVal.one a) :: b
    | .kwOnly => .error .typeError
    | .varKw => .error .typeError

/-- Whether keyword `k` can bind to declared parameter `p` by name. -/
def isKwTarget (p : Param) (k : String) : Bool :=
  p.name == k && (p.kind == PKind.posOrKw || p.kind == PKind.kwOnly)

/-- Keyword phase of `bind_partial`: split the keyword arguments into those
matching a declared (positional-or-keyword or keyword-only) parameter and the
leftover ones destined for a `**kwargs` parameter. -/
def bindKw (sig : Sig) : Kwargs → Binding × Kwargs
  | [] => ([], [])
  | (k, v) :: rest =>
      let (b, extra) := bindKw sig rest
      if sig.any (fun p => isKwTarget p k) then ((k, BVal.one v) :: b, extra)
      else (b, (k, v) :: extra)

/-- Name of the `**kwargs` parameter, if the signature has one. -/
def varKwName (sig : Sig) : Option String :=
  (sig.find? fun p => p.kind == PKind.varKw).map Param.name

/-- `Signature.bind_partial(*args, **kwargs)`: positional phase, then keyword
phase; leftover keywords go to the `**kwargs` parameter when one exists
(bound only when non-empty, as CPython does) and raise TypeError otherwise. -/
def sigBind (sig : Sig) (args : List Value) (kwargs : Kwargs) :
    Except PyErr Binding := do
  let pb ← bindPos sig args (kwargs.map Prod.fst)
  let (kb, extra) := bindKw sig kwargs
  match varKwName sig with
  | some n =>
      if extra.isEmpty then pure (pb ++ kb)
      else pure (pb ++ kb ++ [(n, BVal.dstar extra)])
  | none =>
      if extra.isEmpty then pure (pb ++ kb) else .error .typeError

/-- The value `apply_defaults` would fill in for an unbound parameter:
its declared default, `()` for `*args`, `{}` for `**kwargs`. -/
def fillerVal (p : Param) : Option BVal :=
  match p.kind, p.default with
  | .varPos, _ => some (BVal.star [])
  | .varKw, _ => some (BVal.dstar [])
  | _, some d => some (BVal.one d)
  | _, none => none

/-- One step of `BoundArguments.apply_defaults`: fill parameter `p` if it is
unbound and has a filler. (CPython rebuilds the mapping in signature order;
we append instead, which is observationally equal because the final call
environment is read back by name, in signature order, by `callFinalize`.) -/
def fillParam (b : Binding) (p : Param) : Binding :=
  if p.name ∈ bindNames b then b
  else
    match fillerVal p with
    | some x => b ++ [(p.name, x)]
    | none => b

/-- `BoundArguments.apply_defaults()`: fill every unbound defaulted or
variadic parameter, scanning the parameters in declaration order. -/
def applyDefaults : Sig → Binding → Binding
  | [], b => b
  | p :: ps, b => applyDefaults ps (fillParam b p)

/-- The parameter environment the handler body observes when invoked as
`handler(*bind.args, **bind.kwargs)`: Python itself fills the remaining
defaults at call time and raises TypeError if a required parameter is still
missing. The environment is read back in signature order, so it is a
canonical form independent of binding-entry order. -/
def callFinalize (sig : Sig) (b : Binding) : Except PyErr Binding :=
  let b' := applyDefaults sig b
  sig.mapM fun p =>
    match lookupBVal b' p.name with
    | some x => Except.ok (p.name, x)
    | none => Except.error PyErr.typeError

/-- The declared parameter names (`signature.parameters`). -/
def declaredNames (sig : Sig) : List String := sig.map Param.name

/-- `{k: v for k, v in kwargs.items() if k in signature.parameters}`. -/
def filterDeclared (sig : Sig) (kwargs : Kwargs) : Kwargs :=
  kwargs.filter fun kv => decide (kv.1 ∈ declaredNames sig)

/-- Argument adaptation as performed inline by `Signal._notify_sync`
(atom.py lines 211-220): bind all kwargs when the handler has `**kwargs`,
otherwise bind the kwargs filtered to the declared names; in *both* cases
`bind.apply_defaults()` is then called. -/
def signalAdapt (sig : Sig) (args : List Value) (kwargs : Kwargs) :
    Except PyErr Binding :=
  (if hasVarKw sig then sigBind sig args kwargs
   else sigBind sig args (filterDeclared sig kwargs)).map (applyDefaults sig)

/-- Argument adaptation as performed by `Executor._adapt_call_params`
(utils.py lines 40-51): identical to the Signal path except that
`bind.apply_defaults()` is called only in the no-`**kwargs` branch. -/
def executorAdapt (sig : Sig) (args : List Value) (kwargs : Kwargs) :
    Except PyErr Binding :=
  if hasVarKw sig then sigBind sig args kwargs
  else (sigBind sig args (filterDeclared sig kwargs)).map (applyDefaults sig)

/-- Effective call environment of a handler dispatched by
`Signal._notify_sync`: adaptation followed by the actual call. -/
def signalCallEnv (sig : Sig) (args : List Value) (kwargs : Kwargs) :
    Except PyErr Binding :=
  (signalAdapt sig args kwargs).bind (callFinalize sig)

/-- Effective call environment of a handler invoked through
`Executor._adapt_call_params` and then called. -/
def executorCallEnv (sig : Sig) (args : List Value) (kwargs : Kwargs) :
    Except PyErr Binding :=
  (executorAdapt sig args kwargs).bind (callFinalize sig)

/-! ### The Deferred Result Aggregator: `MultipleResults` (utils.py) -/

/-- One entry handed to `MultipleResults`: a plain value or an awaitable.
An awaitable is modelled by the value it eventually produces when awaited. -/
inductive Entry where
  | val (v : Value)
  | coro (res : Value)

/-- `inspect.isawaitable` on an entry. -/
def Entry.isCoro : Entry → Bool
  | .coro _ => true
  | .val _ => false

/-- The plain value an entry holds (for a `coro` entry, the value produced
once it has been awaited). -/
def Entry.resolved : Entry → Value
  | .val v => v
  | .coro v => v

/-- `tuple(ix for ix, e in enumerate(results) if inspect.isawaitable(e))`,
counting positions from `i`. -/
def coroIxsFrom : List Entry → Nat → List Nat
  | [], _ => []
  | e :: es, i =>
      if e.isCoro then i :: coroIxsFrom es (i + 1) else coroIxsFrom es (i + 1)

/-- The state of a `MultipleResults` instance. `uresults` models the
`_results` list attribute; it becomes `none` once `_completion_task`
executes `del self._results`. `results` is `none` while the class-level
`results = None` attribute is still shadowing the instance one. -/
structure MR where
  concurrent : Bool
  uresults : Option (List Entry)
  coroIxs : List Nat
  hasAsync : Bool
  done : Bool
  results : Option (List Value)

/-- `MultipleResults.__init__(iterable, concurrent=...)` (utils.py lines
130-142): record the entries, compute the awaitable positions; with no
awaitable the instance is immediately `done` with `results` set to the
tuple of the entries. -/
def MR.init (entries : List Entry) (concurrent : Bool) : MR :=
  let ixs := coroIxsFrom entries 0
  if ixs.isEmpty then
    { concurrent := concurrent, uresults := some entries, coroIxs := ixs,
      hasAsync := false, done := true,
      results := some (entries.map Entry.resolved) }
  else
    { concurrent := concurrent, uresults := some entries, coroIxs := ixs,
      hasAsync := true, done := false, results := none }

/-- The completion loop of `_completion_task`: `self._results[ix] = await
coro` for each recorded awaitable position (the concurrent `asyncio.gather`
branch and the sequential branch produce the same final state). -/
def awaitCoros (rs : List Entry) (ixs : List Nat) : List Entry :=
  ixs.foldl
    (fun l ix =>
      match l.get? ix with
      | some (Entry.coro v) => l.set ix (Entry.val v)
      | _ => l)
    rs

/-- One `await` of a `MultipleResults` (utils.py lines 144-163):
`__await__` eagerly reads `self._results` (AttributeError if it was
deleted by a previous await), then `_completion_task` awaits the pending
entries unless `done`, stores `results = tuple(self._results)`, deletes
`_results`, sets `done = True` and returns the tuple. -/
def MR.await1 (m : MR) : Except PyErr (MR × List Value) :=
  match m.uresults with
  | none => .error .attributeError
  | some rs =>
      let rs' := if m.done then rs else awaitCoros rs m.coroIxs
      let vals := rs'.map Entry.resolved
      .ok ({ m with uresults := none, done := true, results := some vals },
           vals)

/-- Awaiting the same `MultipleResults` twice in sequence, returning both
value tuples. -/
def awaitTwice (m : MR) : Except PyErr (List Value × List Value) := do
  let (m1, r1) ← m.await1
  let (_, r2) ← m1.await1
  pure (r1, r2)

/-! ### The notify dispatch loop (atom.py) -/

/-- Outcome of one handler invocation: an immediate value or an awaitable
(classified by `inspect.isawaitable` in `_notify_sync`); the awaitable is
modelled by the value it eventually produces. -/
inductive HRes where
  | sync (v : Value)
  | async (c : Value)

/-- A handler subscribed to a Signal: its signature and its body, which
reads the bound parameter environment and either returns a result or
raises. -/
structure NHandler where
  sig : Sig
  fn : Binding → Except PyErr HRes

/-- Adaptation plus invocation of one subscriber, i.e. the body of the
`try` block in `_notify_sync` (atom.py lines 210-225). -/
def invokeOne (h : NHandler) (args : List Value) (kwargs : Kwargs) :
    Except PyErr HRes :=
  (signalCallEnv h.sig args kwargs).bind h.fn

/-- The future `_create_async_results` returns: already fulfilled with the
sync results when there is no awaitable, otherwise pending on the
awaitables (scheduled sequentially or gathered, per the
`_sequential_async_handlers` flag). -/
inductive NotifyResult where
  | resolved (vs : List Value)
  | pending (syncResults : List Value) (coros : List Value) (sequential : Bool)

/-- `Signal._create_async_results(sync_results, async_results, loop)`
(atom.py lines 132-151), keeping only the data visible to the caller. -/
def createAsyncResults (syncResults : List Value) (coros : List Value)
    (sequential : Bool) : NotifyResult :=
  if coros.isEmpty then .resolved syncResults
  else .pending syncResults coros sequential

/-- The dispatch loop of `_notify_sync` (atom.py lines 209-228): for each
subscriber in order, adapt the arguments and invoke it, appending immediate
results to `results` and awaitables to `coros`; any error is re-raised,
aborting the loop. The first component counts how many handler bodies were
actually invoked before the loop finished or aborted. -/
def dispatchLoop (hs : List NHandler) (args : List Value) (kwargs : Kwargs) :
    Nat × Except PyErr (List Value × List Value) :=
  match hs with
  | [] => (0, .ok ([], []))
  | h :: rest =>
      match signalCallEnv h.sig args kwargs with
      | .error e => (0, .error e)
      | .ok env =>
          match h.fn env with
          | .error e => (1, .error e)
          | .ok r =>
              let (n, out) := dispatchLoop rest args kwargs
              (n + 1,
               out.map fun p =>
                 match r with
                 | .sync v => (v :: p.1, p.2)
                 | .async c => (p.1, c :: p.2))

/-- `Signal._notify_sync` (atom.py lines 204-241): run the dispatch loop,
append the external signaller's outcome to the awaitables when it is
awaitable, and package everything through `_create_async_results`.
`ext` is the outcome of `ext_publish` when an external signaller is bound
and external notification is not suppressed, `none` otherwise. The
transaction collaborator is absent (`transaction.get` returning `None`),
so `_add_to_trans` is the identity on the awaitables. -/
def notifySync (hs : List NHandler) (args : List Value) (kwargs : Kwargs)
    (ext : Option HRes) (sequential : Bool) :
    Nat × Except PyErr NotifyResult :=
  let (n, out) := dispatchLoop hs args kwargs
  (n,
   out.map fun p =>
     let coros :=
       match ext with
       | some (HRes.async c) => p.2 ++ [c]
       | _ => p.2
     createAsyncResults p.1 coros sequential)

/-! ### `Signal.notify` control keywords (atom.py lines 351-360, 174-191) -/

/-- `kwargs.pop(k, default)`: the dict without key `k` (kwargs keys are
unique, so removing the one entry is filtering the key out). -/
def popKw (kwargs : Kwargs) (k : String) : Kwargs :=
  kwargs.filter fun kv => !(kv.1 == k)

/-- The keyword names consumed by the notify machinery itself:
`Signal.notify` pops the first four, `Signal._notify` pops `run_async`. -/
def controlNames : List String :=
  ["_subscribers", "_instance", "_loop", "_notify_external", "run_async"]

/-- The kwargs remaining after `Signal.notify` popped `_subscribers`,
`_instance`, `_loop` and `_notify_external` and `Signal._notify` popped
`run_async`; these are the kwargs the dispatch loop sees. -/
def stripControls (kwargs : Kwargs) : Kwargs :=
  popKw (popKw (popKw (popKw (popKw kwargs "_subscribers") "_instance")
      "_loop") "_notify_external") "run_async"

/-- `Signal.notify` for a Signal without a notify wrapper: pop the control
keywords, then dispatch with the remaining kwargs (the `run_async` branch
defers the very same `_notify_sync` call to the loop, so the kwargs reaching
the handlers are identical in both branches). -/
def notifyModel (hs : List NHandler) (args : List Value) (kwargs : Kwargs)
    (ext : Option HRes) (sequential : Bool) :
    Nat × Except PyErr NotifyResult :=
  notifySync hs args (stripControls kwargs) ext sequential

/-! ### Subscriber merging in `Signal.notify` (atom.py lines 361-384) -/

/-- `d[k] = True` on the method-aware ordered dict: a new key is appended,
an existing key keeps its position (the stored value is always `True`).
Bound-method-aware equality is abstracted into the element type's
decidable equality. -/
def dictInsertIfAbsent {α : Type} [DecidableEq α] (d : List α) (x : α) :
    List α :=
  if x ∈ d then d else d ++ [x]

/-- The merge performed by `Signal.notify`: start from a copy of the
class-level subscribers, append each class-declared handler not already
present, then append each instance-level runtime subscriber not already
present; the final subscriber list is the keys of the resulting dict. -/
def mergeSubscribers {α : Type} [DecidableEq α]
    (classSubs classHandlers instSubs : List α) : List α :=
  instSubs.foldl dictInsertIfAbsent
    (classHandlers.foldl dictInsertIfAbsent classSubs)

/-- The elements of the second list not already present in the first,
in order, each occurring once (later duplicates skipped). -/
def addNew {α : Type} [DecidableEq α] : List α → List α → List α
  | _, [] => []
  | seen, x :: xs =>
      if x ∈ seen then addNew seen xs else x :: addNew (seen ++ [x]) xs

/-! ### The subscriber registry: `_connect` / `_disconnect`
(atom.py lines 129-130 and 153-155) -/

/-- `Signal._connect`: `subscribers[cback] = True`. -/
def connectReg {α : Type} [DecidableEq α] (d : List α) (k : α) : List α :=
  dictInsertIfAbsent d k

/-- `Signal._disconnect`: `if cback in subscribers: del subscribers[cback]`. -/
def disconnectReg {α : Type} [DecidableEq α] (d : List α) (k : α) : List α :=
  if k ∈ d then d.erase k else d

/-! ### The Executor (utils.py lines 20-96) -/

/-- What an Executor endpoint returns: a plain value or awaitable (an
`Entry`), the `NoResult` token, or a `MultipleResults` of its own. -/
inductive ERes where
  | ent (e : Entry)
  | noRes
  | multi (m : MR)

/-- An executor endpoint callable: signature plus body. -/
structure EHandler where
  sig : Sig
  fn : Binding → Except PyErr ERes

/-- An entry of the `endpoints` list: a plain callable or a weak reference
(`weakref.ref`), whose referent may have expired. -/
inductive Endpoint where
  | strong (h : EHandler)
  | weakRef (referent : Option EHandler)

/-- The dereferencing step at the top of the loop in `exec_all_endpoints`:
`if isinstance(handler, weakref.ref): handler = handler()`. An expired
reference yields `None`. -/
def derefEndpoint : Endpoint → Option EHandler
  | .strong h => some h
  | .weakRef r => r

/-- Invocation of one (possibly dereferenced) endpoint. A `None` handler
(expired weak reference) raises TypeError: with `adapt_params` set,
`inspect.signature(None)` raises; without it, `None(*args, **kwargs)`
raises. A live handler is called through `_adapt_call_params` when
`adaptParams`, directly otherwise. -/
def invokeEndpoint (adaptParams : Bool) (h? : Option EHandler)
    (args : List Value) (kwargs : Kwargs) : Except PyErr ERes :=
  match h? with
  | none => .error .typeError
  | some h =>
      if adaptParams then (executorCallEnv h.sig args kwargs).bind h.fn
      else ((sigBind h.sig args kwargs).bind (callFinalize h.sig)).bind h.fn

/-- What one endpoint's result contributes to the aggregated list
(utils.py lines 63-66): a `MultipleResults` contributes `res.results`
(TypeError when that attribute is still `None`, i.e. the aggregator is not
yet resolved: `results += None` is not iterable); `NoResult` contributes
nothing; anything else is appended as is. -/
def spliceResult : ERes → Except PyErr (List Entry)
  | .ent e => .ok [e]
  | .noRes => .ok []
  | .multi m =>
      match m.results with
      | some vs => .ok (vs.map Entry.val)
      | none => .error .typeError

/-- The loop of `Executor.exec_all_endpoints` (utils.py lines 53-67)
producing the `results` list handed to `MultipleResults`. -/
def execLoop (adaptParams : Bool) (eps : List Endpoint)
    (args : List Value) (kwargs : Kwargs) : Except PyErr (List Entry) :=
  match eps with
  | [] => .ok []
  | ep :: rest => do
      let res ← invokeEndpoint adaptParams (derefEndpoint ep) args kwargs
      let cur ← spliceResult res
      let others ← execLoop adaptParams rest args kwargs
      pure (cur ++ others)

/-- `Executor.exec_all_endpoints`, which `run` amounts to when no
`exec_wrapper` is configured (the `try` in `run` logs and re-raises, so it
does not alter the outcome). -/
def execAllEndpoints (adaptParams concurrent : Bool) (eps : List Endpoint)
    (args : List Value) (kwargs : Kwargs) : Except PyErr MR :=
  (execLoop adaptParams eps args kwargs).map fun entries =>
    MR.init entries concurrent

/-! ### Concrete handlers for the specification's scenarios -/

/-- The scenario handler `h1(a) -> 1`. -/
def scenarioH1 : NHandler :=
  { sig := [⟨"a", PKind.posOrKw, none⟩],
    fn := fun _ => .ok (HRes.sync (Value.vint 1)) }

/-- The scenario handler `h2(a, b=0) -> ("x", a, b)`. -/
def scenarioH2 : NHandler :=
  { sig := [⟨"a", PKind.posOrKw, none⟩,
            ⟨"b", PKind.posOrKw, some (Value.vint 0)⟩],
    fn := fun env =>
      match lookupBVal env "a", lookupBVal env "b" with
      | some (BVal.one a), some (BVal.one b) =>
          .ok (HRes.sync (Value.vtup [Value.vstr "x", a, b]))
      | _, _ => .error .typeError }

/-- A handler `bad(a)` whose body raises. -/
def errHandler : NHandler :=
  { sig := [⟨"a", PKind.posOrKw, none⟩],
    fn := fun _ => .error (.custom 7) }

/-- An executor endpoint callable returning a plain value. -/
def valEndpoint : EHandler :=
  { sig := [], fn := fun _ => .ok (ERes.ent (Entry.val (Value.vint 9))) }

/-- An executor endpoint callable returning the `NoResult` token. -/
def noResEndpoint : EHandler :=
  { sig := [], fn := fun _ => .ok ERes.noRes }

/-- A `MultipleResults` still holding a pending awaitable (its `results`
attribute is still the class-level `None`). -/
def pendingInner : MR := MR.init [Entry.coro (Value.vint 7)] false

/-- An executor endpoint callable returning an unresolved aggregator. -/
def multiPendingEndpoint : EHandler :=
  { sig := [], fn := fun _ => .ok (ERes.multi pendingInner) }

/-- An executor endpoint callable returning an already-resolved aggregator. -/
def multiDoneEndpoint : EHandler :=
  { sig := [], fn := fun _ => .ok (ERes.multi (MR.init [Entry.val (Value.vint 3)] false)) }

/-! ## Theorems -/

theorem foldl_dictInsertIfAbsent {α : Type} [DecidableEq α]
    (xs d : List α) : xs.foldl dictInsertIfAbsent d = d ++ addNew d xs := by
  induction xs generalizing d with
  | nil => simp [addNew]
  | cons x xs ih =>
      by_cases h : x ∈ d
      · simp [dictInsertIfAbsent, h, addNew, ih]
      · simp [dictInsertIfAbsent, h, addNew, ih]

/-- C1: the effective subscriber list built by `Signal.notify` is exactly the
class-level subscribers in registration order, followed by the class-declared
handlers not already present, followed by the instance-level runtime
subscribers not already present; duplicates are skipped without reordering
any earlier entry. -/
theorem C1_notify_merge_order {α : Type} [DecidableEq α]
    (classSubs classHandlers instSubs : List α) :
    mergeSubscribers classSubs classHandlers instSubs =
      classSubs ++ addNew classSubs classHandlers ++
        addNew (classSubs ++ addNew classSubs classHandlers) instSubs := by
  unfold mergeSubscribers
  rw [foldl_dictInsertIfAbsent, foldl_dictInsertIfAbsent]

theorem C1_notify_merge_order_witness :
    mergeSubscribers ([1, 2] : List Nat) [2, 3] [3, 1, 4] =
      [1, 2] ++ addNew [1, 2] [2, 3] ++
        addNew ([1, 2] ++ addNew [1, 2] [2, 3]) [3, 1, 4] :=
  C1_notify_merge_order [1, 2] [2, 3] [3, 1, 4]

/-- C9: connecting a handler already present leaves the registry with exactly
one entry for it and in place; disconnecting an absent handler is a no-op,
and a second disconnect after a removal is likewise a no-op. -/
theorem C9_registry_noop_laws {α : Type} [DecidableEq α]
    (d : List α) (k : α) (hnd : d.Nodup) :
    (k ∈ d → connectReg d k = d) ∧
    connectReg (connectReg d k) k = connectReg d k ∧
    (connectReg d k).count k = 1 ∧
    (k ∉ d → disconnectReg d k = d) ∧
    disconnectReg (disconnectReg d k) k = disconnectReg d k := by
  refine ⟨fun h => ?_, ?_, ?_, fun h => ?_, ?_⟩
  · simp [connectReg, dictInsertIfAbsent, h]
  · by_cases h : k ∈ d
    · simp [connectReg, dictInsertIfAbsent, h]
    · simp [connectReg, dictInsertIfAbsent, h]
  · by_cases h : k ∈ d
    · simp only [connectReg, dictInsertIfAbsent, if_pos h]
      exact List.count_eq_one_of_mem hnd h
    · simp only [connectReg, dictInsertIfAbsent, if_neg h]
      rw [List.count_append]
      simp [List.count_eq_zero_of_not_mem h]
  · simp [disconnectReg, h]
  · by_cases h : k ∈ d
    · have h1 : k ∉ d.erase k := fun hmem =>
        (((List.Nodup.mem_erase_iff hnd).mp hmem).1) rfl
      simp [disconnectReg, h, h1]
    · simp [disconnectReg, h]

theorem C9_registry_noop_laws_witness :
    ([1, 2] : List Nat).Nodup ∧
    ((2 ∈ ([1, 2] : List Nat) → connectReg [1, 2] 2 = [1, 2]) ∧
     connectReg (connectReg ([1, 2] : List Nat) 2) 2 = connectReg [1, 2] 2 ∧
     (connectReg ([1, 2] : List Nat) 2).count 2 = 1 ∧
     (2 ∉ ([1, 2] : List Nat) → disconnectReg [1, 2] 2 = [1, 2]) ∧
     disconnectReg (disconnectReg ([1, 2] : List Nat) 2) 2 =
       disconnectReg [1, 2] 2) :=
  ⟨by decide, C9_registry_noop_laws [1, 2] 2 (by decide)⟩

/-- C10: the control keywords `_subscribers`, `_instance`, `_loop`,
`_notify_external` and `run_async` are consumed by the notify machinery:
the kwargs reaching the dispatch loop are exactly the caller's kwargs with
those keys removed, so none of these names is ever forwarded to a handler. -/
theorem C10_control_kwargs_consumed (hs : List NHandler) (args : List Value)
    (kwargs : Kwargs) (ext : Option HRes) (sequential : Bool) :
    notifyModel hs args kwargs ext sequential =
      notifySync hs args (stripControls kwargs) ext sequential ∧
    (∀ kv : String × Value,
      kv ∈ stripControls kwargs ↔ kv ∈ kwargs ∧ kv.1 ∉ controlNames) ∧
    (∀ k ∈ controlNames, k ∉ (stripControls kwargs).map Prod.fst) := by
  refine ⟨rfl, fun kv => ?_, fun k hk => ?_⟩
  · simp only [stripControls, popKw, List.mem_filter, controlNames,
      List.mem_cons, List.not_mem_nil]
    simp only [Bool.not_eq_eq_eq_not, Bool.not_true, beq_eq_false_iff_ne,
      ne_eq]
    constructor
    · rintro ⟨⟨⟨⟨⟨hm, h1⟩, h2⟩, h3⟩, h4⟩, h5⟩
      exact ⟨hm, by simp_all⟩
    · rintro ⟨hm, hnot⟩
      simp only [not_or] at hnot
      exact ⟨⟨⟨⟨⟨hm, hnot.1⟩, hnot.2.1⟩, hnot.2.2.1⟩, hnot.2.2.2.1⟩,
        hnot.2.2.2.2.1⟩
  · intro hmem
    rcases List.mem_map.mp hmem with ⟨kv, hkv, hfst⟩
    simp only [stripControls, popKw, List.mem_filter] at hkv
    obtain ⟨⟨⟨⟨⟨_, h1⟩, h2⟩, h3⟩, h4⟩, h5⟩ := hkv
    simp only [Bool.not_eq_eq_eq_not, Bool.not_true, beq_eq_false_iff_ne,
      ne_eq] at h1 h2 h3 h4 h5
    subst hfst
    simp only [controlNames, List.mem_cons, List.not_mem_nil, or_false] at hk
    rcases hk with h | h | h | h | h <;> simp_all

theorem bindNames_append (b c : Binding) :
    bindNames (b ++ c) = bindNames b ++ bindNames c :=
  List.map_append _ _ _

theorem fillParam_of_mem {b : Binding} {p : Param}
    (h : p.name ∈ bindNames b) : fillParam b p = b := by
  simp [fillParam, h]

theorem fillParam_of_no_filler {b : Binding} {p : Param}
    (h : fillerVal p = none) : fillParam b p = b := by
  unfold fillParam
  split
  · rfl
  · rw [h]

theorem mem_bindNames_fillParam {b : Binding} {p : Param} {n : String}
    (h : n ∈ bindNames b) : n ∈ bindNames (fillParam b p) := by
  unfold fillParam
  split
  · exact h
  · split
    · rw [bindNames_append]
      exact List.mem_append_left _ h
    · exact h

theorem mem_bindNames_applyDefaults {sig : Sig} {b : Binding} {n : String}
    (h : n ∈ bindNames b) : n ∈ bindNames (applyDefaults sig b) := by
  induction sig generalizing b with
  | nil => exact h
  | cons p ps ih => exact ih (mem_bindNames_fillParam h)

theorem self_mem_bindNames_fillParam {b : Binding} {p : Param} {x : BVal}
    (h : fillerVal p = some x) : p.name ∈ bindNames (fillParam b p) := by
  unfold fillParam
  split
  · assumption
  · rw [h, bindNames_append]
    exact List.mem_append_right _ (by simp [bindNames])

theorem applyDefaults_idem (sig : Sig) (b : Binding) :
    applyDefaults sig (applyDefaults sig b) = applyDefaults sig b := by
  induction sig generalizing b with
  | nil => rfl
  | cons p ps ih =>
      show applyDefaults ps (fillParam (applyDefaults ps (fillParam b p)) p) =
        applyDefaults ps (fillParam b p)
      have hfix : fillParam (applyDefaults ps (fillParam b p)) p =
          applyDefaults ps (fillParam b p) := by
        cases hf : fillerVal p with
        | none => exact fillParam_of_no_filler hf
        | some x =>
            exact fillParam_of_mem
              (mem_bindNames_applyDefaults (self_mem_bindNames_fillParam hf))
      rw [hfix]
      exact ih (fillParam b p)

theorem callFinalize_applyDefaults (sig : Sig) (b : Binding) :
    callFinalize sig (applyDefaults sig b) = callFinalize sig b := by
  unfold callFinalize
  rw [applyDefaults_idem]

theorem lookupBVal_append_of_ne {b : Binding} {m n : String} {x : BVal}
    (h : m ≠ n) : lookupBVal (b ++ [(m, x)]) n = lookupBVal b n := by
  unfold lookupBVal
  rw [List.find?_append]
  cases hb : b.find? fun kv => kv.1 == n with
  | some kv => rfl
  | none => simp [Option.orElse, h]

theorem lookupBVal_append_self {b : Binding} {n : String} {x : BVal}
    (h : lookupBVal b n = none) : lookupBVal (b ++ [(n, x)]) n = some x := by
  unfold lookupBVal at h ⊢
  rw [List.find?_append]
  cases hb : b.find? fun kv => kv.1 == n with
  | some kv => rw [hb] at h; simp at h
  | none => simp [Option.orElse]

theorem lookupBVal_fillParam_of_ne {b : Binding} {q : Param} {n : String}
    (h : q.name ≠ n) : lookupBVal (fillParam b q) n = lookupBVal b n := by
  unfold fillParam
  split
  · rfl
  · split
    · exact lookupBVal_append_of_ne h
    · rfl

theorem lookupBVal_applyDefaults_of_ne {ps : Sig} {b : Binding} {n : String}
    (h : ∀ q ∈ ps, q.name ≠ n) :
    lookupBVal (applyDefaults ps b) n = lookupBVal b n := by
  induction ps generalizing b with
  | nil => rfl
  | cons q qs ih =>
      show lookupBVal (applyDefaults qs (fillParam b q)) n = lookupBVal b n
      rw [ih fun r hr => h r (List.mem_cons_of_mem _ hr),
        lookupBVal_fillParam_of_ne (h q (List.mem_cons_self _ _))]

theorem fillerVal_of_default {p : Param} {d : Value}
    (hd : p.default = some d) (h1 : p.kind ≠ PKind.varPos)
    (h2 : p.kind ≠ PKind.varKw) : fillerVal p = some (BVal.one d) := by
  obtain ⟨nm, k, df⟩ := p
  cases k <;> simp_all [fillerVal]

theorem lookupBVal_none_not_mem {b : Binding} {n : String}
    (h : lookupBVal b n = none) : n ∉ bindNames b := by
  intro hmem
  rcases List.mem_map.mp hmem with ⟨kv, hkv, hfst⟩
  unfold lookupBVal at h
  rcases Option.map_eq_none'.mp h with hfind
  have := List.find?_eq_none.mp hfind kv hkv
  simp [hfst] at this

theorem applyDefaults_fills_default {sig : Sig} {p : Param} {d : Value}
    (hmem : p ∈ sig) (hnd : (declaredNames sig).Nodup)
    (hd : p.default = some d) (h1 : p.kind ≠ PKind.varPos)
    (h2 : p.kind ≠ PKind.varKw) :
    ∀ b : Binding, lookupBVal b p.name = none →
      lookupBVal (applyDefaults sig b) p.name = some (BVal.one d) := by
  induction sig with
  | nil => cases hmem
  | cons q qs ih =>
      intro b hb
      rcases List.mem_cons.mp hmem with heq | htail
      · subst heq
        show lookupBVal (applyDefaults qs (fillParam b p)) p.name =
          some (BVal.one d)
        have hne : ∀ r ∈ qs, r.name ≠ p.name := by
          intro r hr
          have : p.name ∉ qs.map Param.name :=
            (List.nodup_cons.mp hnd).1
          intro hcontra
          exact this (hcontra ▸ List.mem_map_of_mem Param.name hr)
        rw [lookupBVal_applyDefaults_of_ne hne]
        have hfill : fillParam b p = b ++ [(p.name, BVal.one d)] := by
          unfold fillParam
          rw [if_neg (lookupBVal_none_not_mem hb),
            fillerVal_of_default hd h1 h2]
        rw [hfill]
        exact lookupBVal_append_self hb
      · have hqname : q.name ≠ p.name := by
          have : q.name ∉ qs.map Param.name := (List.nodup_cons.mp hnd).1
          intro hcontra
          exact this (hcontra ▸ List.mem_map_of_mem Param.name htail)
        show lookupBVal (applyDefaults qs (fillParam b q)) p.name =
          some (BVal.one d)
        exact ih htail (List.nodup_cons.mp hnd).2
          (fillParam b q)
          ((lookupBVal_fillParam_of_ne hqname).trans hb)

/-- C4: argument adaptation — with an open-ended keyword capture all kwargs
are bound; without one the kwargs are first filtered to the declared names;
in both cases the handler's own defaults end up applied to remaining
unfilled parameters; and the effective call environment is identical in the
Signal dispatch path and in the Executor path (the only syntactic
difference, the placement of `apply_defaults` in the `**kwargs` branch, is
invisible because the callee fills its own defaults at call time). -/
theorem C4_adaptation_agreement (sig : Sig) (args : List Value)
    (kwargs : Kwargs) :
    signalCallEnv sig args kwargs = executorCallEnv sig args kwargs ∧
    (hasVarKw sig = true →
      signalAdapt sig args kwargs =
        (sigBind sig args kwargs).map (applyDefaults sig) ∧
      executorAdapt sig args kwargs = sigBind sig args kwargs) ∧
    (hasVarKw sig = false →
      signalAdapt sig args kwargs =
        (sigBind sig args (filterDeclared sig kwargs)).map
          (applyDefaults sig) ∧
      executorAdapt sig args kwargs =
        (sigBind sig args (filterDeclared sig kwargs)).map
          (applyDefaults sig)) ∧
    (∀ p ∈ sig, ∀ d : Value, (declaredNames sig).Nodup →
      p.default = some d → p.kind ≠ PKind.varPos → p.kind ≠ PKind.varKw →
      ∀ b : Binding, lookupBVal b p.name = none →
        lookupBVal (applyDefaults sig b) p.name = some (BVal.one d)) := by
  refine ⟨?_, fun h => ?_, fun h => ?_, ?_⟩
  · unfold signalCallEnv executorCallEnv signalAdapt executorAdapt
    cases hvk : hasVarKw sig with
    | true =>
        simp only [if_pos rfl]
        cases hb : sigBind sig args kwargs with
        | error e => rfl
        | ok b =>
            show Except.bind (Except.ok (applyDefaults sig b))
                (callFinalize sig) =
              Except.bind (Except.ok b) (callFinalize sig)
            show callFinalize sig (applyDefaults sig b) = callFinalize sig b
            exact callFinalize_applyDefaults sig b
    | false => simp
  · constructor
    · simp [signalAdapt, h]
    · simp [executorAdapt, h]
  · constructor
    · simp [signalAdapt, h]
    · simp [executorAdapt, h]
  · intro p hmem d hnd hd h1 h2 b hb
    exact applyDefaults_fills_default hmem hnd hd h1 h2 b hb

theorem C4_adaptation_agreement_witness :
    signalCallEnv [⟨"a", PKind.posOrKw, none⟩, ⟨"kw", PKind.varKw, none⟩]
        [Value.vint 1] [("z", Value.vint 2)] =
      executorCallEnv [⟨"a", PKind.posOrKw, none⟩, ⟨"kw", PKind.varKw, none⟩]
        [Value.vint 1] [("z", Value.vint 2)] ∧
    executorAdapt [⟨"a", PKind.posOrKw, none⟩, ⟨"kw", PKind.varKw, none⟩]
        [Value.vint 1] [("z", Value.vint 2)] =
      sigBind [⟨"a", PKind.posOrKw, none⟩, ⟨"kw", PKind.varKw, none⟩]
        [Value.vint 1] [("z", Value.vint 2)] ∧
    lookupBVal
        (applyDefaults
          [⟨"a", PKind.posOrKw, none⟩, ⟨"b", PKind.posOrKw, some (Value.vint 0)⟩]
          []) "b" = some (BVal.one (Value.vint 0)) := by
  have hc := C4_adaptation_agreement
    [⟨"a", PKind.posOrKw, none⟩, ⟨"kw", PKind.varKw, none⟩]
    [Value.vint 1] [("z", Value.vint 2)]
  refine ⟨hc.1, (hc.2.1 (by decide)).2, ?_⟩
  exact (C4_adaptation_agreement
      [⟨"a", PKind.posOrKw, none⟩, ⟨"b", PKind.posOrKw, some (Value.vint 0)⟩]
      [] []).2.2.2
    ⟨"b", PKind.posOrKw, some (Value.vint 0)⟩ (.tail _ (.head _))
    (Value.vint 0) (by decide) rfl (by decide) (by decide) [] rfl

theorem dispatchLoop_all_sync {args : List Value} {kwargs : Kwargs}
    {hs : List NHandler} {vs : List Value}
    (h : List.Forall₂
      (fun h v => invokeOne h args kwargs = .ok (HRes.sync v)) hs vs) :
    dispatchLoop hs args kwargs = (hs.length, .ok (vs, [])) := by
  induction h with
  | nil => rfl
  | @cons h v hs vs hhv htail ih =>
      show dispatchLoop (h :: hs) args kwargs = _
      unfold invokeOne at hhv
      cases henv : signalCallEnv h.sig args kwargs with
      | error e => rw [henv] at hhv; cases hhv
      | ok env =>
          rw [henv] at hhv
          have hfn : h.fn env = .ok (HRes.sync v) := hhv
          simp only [dispatchLoop, henv, hfn, ih]
          rfl

/-- C2: when every subscriber is synchronous (each invocation yields an
immediate value), `_notify_sync` invokes all of them and returns an
already-resolved result holding the values in registration order. -/
theorem C2_sync_registration_order (args : List Value) (kwargs : Kwargs)
    (sequential : Bool) (hs : List NHandler) (vs : List Value)
    (h : List.Forall₂
      (fun h v => invokeOne h args kwargs = .ok (HRes.sync v)) hs vs) :
    notifySync hs args kwargs none sequential =
      (hs.length, .ok (NotifyResult.resolved vs)) := by
  unfold notifySync
  rw [dispatchLoop_all_sync h]
  rfl

theorem C2_sync_registration_order_witness :
    List.Forall₂
      (fun h v => invokeOne h [Value.vint 5] [("b", Value.vint 9)] =
        .ok (HRes.sync v))
      [scenarioH1, scenarioH2]
      [Value.vint 1, Value.vtup [Value.vstr "x", Value.vint 5, Value.vint 9]] ∧
    notifySync [scenarioH1, scenarioH2] [Value.vint 5] [("b", Value.vint 9)]
        none false =
      (2, .ok (NotifyResult.resolved
        [Value.vint 1,
         Value.vtup [Value.vstr "x", Value.vint 5, Value.vint 9]])) := by
  have hf : List.Forall₂
      (fun h v => invokeOne h [Value.vint 5] [("b", Value.vint 9)] =
        .ok (HRes.sync v))
      [scenarioH1, scenarioH2]
      [Value.vint 1, Value.vtup [Value.vstr "x", Value.vint 5, Value.vint 9]] :=
    .cons rfl (.cons rfl .nil)
  exact ⟨hf, C2_sync_registration_order _ _ _ _ _ hf⟩

theorem dispatchLoop_cons_errEnv {args : List Value} {kwargs : Kwargs}
    {h : NHandler} {e : PyErr}
    (henv : signalCallEnv h.sig args kwargs = .error e)
    (rest : List NHandler) :
    dispatchLoop (h :: rest) args kwargs = (0, .error e) := by
  simp only [dispatchLoop, henv]

theorem dispatchLoop_cons_errFn {args : List Value} {kwargs : Kwargs}
    {h : NHandler} {env : Binding} {e : PyErr}
    (henv : signalCallEnv h.sig args kwargs = .ok env)
    (hfn : h.fn env = .error e) (rest : List NHandler) :
    dispatchLoop (h :: rest) args kwargs = (1, .error e) := by
  simp only [dispatchLoop, henv, hfn]

theorem dispatchLoop_cons_ok {args : List Value} {kwargs : Kwargs}
    {h : NHandler} {env : Binding} {r : HRes}
    (henv : signalCallEnv h.sig args kwargs = .ok env)
    (hfn : h.fn env = .ok r) (rest : List NHandler) :
    dispatchLoop (h :: rest) args kwargs =
      ((dispatchLoop rest args kwargs).1 + 1,
        (dispatchLoop rest args kwargs).2.map fun p =>
          match r with
          | HRes.sync v => (v :: p.1, p.2)
          | HRes.async c => (p.1, c :: p.2)) := by
  cases r <;> simp only [dispatchLoop, henv, hfn]

theorem dispatchLoop_error {args : List Value} {kwargs : Kwargs} {e : PyErr}
    (pre : List NHandler) (bad : NHandler)
    (hpre : ∀ h ∈ pre, ∃ r, invokeOne h args kwargs = .ok r)
    (hbad : invokeOne bad args kwargs = .error e) :
    ∃ n, pre.length ≤ n ∧ n ≤ pre.length + 1 ∧
      ∀ post : List NHandler,
        dispatchLoop (pre ++ bad :: post) args kwargs = (n, .error e) := by
  induction pre with
  | nil =>
      cases henv : signalCallEnv bad.sig args kwargs with
      | error e' =>
          simp only [invokeOne, henv, Except.bind, Except.error.injEq]
            at hbad
          subst hbad
          exact ⟨0, Nat.le_refl 0, Nat.zero_le 1,
            fun post => dispatchLoop_cons_errEnv henv post⟩
      | ok env =>
          simp only [invokeOne, henv, Except.bind] at hbad
          exact ⟨1, Nat.zero_le 1, Nat.le_refl 1,
            fun post => dispatchLoop_cons_errFn henv hbad post⟩
  | cons h pre ih =>
      obtain ⟨r, hr⟩ := hpre h (List.mem_cons_self _ _)
      obtain ⟨n, hn1, hn2, hall⟩ :=
        ih fun g hg => hpre g (List.mem_cons_of_mem _ hg)
      cases henv : signalCallEnv h.sig args kwargs with
      | error e' =>
          simp only [invokeOne, henv, Except.bind] at hr
          exact Except.noConfusion hr
      | ok env =>
          simp only [invokeOne, henv, Except.bind] at hr
          refine ⟨n + 1, Nat.succ_le_succ hn1, Nat.succ_le_succ hn2,
            fun post => ?_⟩
          rw [List.cons_append, dispatchLoop_cons_ok henv hr, hall post]
          rfl

/-- C7: when some subscriber's argument adaptation or synchronous invocation
raises, the error propagates out of the whole notify call, the remaining
dispatch loop is aborted (the result does not depend on the later
subscribers, which are never invoked), and all prior subscribers have
already been invoked (their executions are not rolled back). -/
theorem C7_error_propagates (args : List Value) (kwargs : Kwargs)
    (ext : Option HRes) (sequential : Bool)
    (pre post : List NHandler) (bad : NHandler) (e : PyErr)
    (hpre : ∀ h ∈ pre, ∃ r, invokeOne h args kwargs = .ok r)
    (hbad : invokeOne bad args kwargs = .error e) :
    (notifySync (pre ++ bad :: post) args kwargs ext sequential).2 =
      .error e ∧
    pre.length ≤ (notifySync (pre ++ bad :: post) args kwargs ext sequential).1 ∧
    (notifySync (pre ++ bad :: post) args kwargs ext sequential).1 ≤
      pre.length + 1 ∧
    notifySync (pre ++ bad :: post) args kwargs ext sequential =
      notifySync (pre ++ [bad]) args kwargs ext sequential := by
  obtain ⟨n, hn1, hn2, hall⟩ := dispatchLoop_error pre bad hpre hbad
  have h1 := hall post
  have h2 := hall []
  unfold notifySync
  rw [h1, h2]
  exact ⟨rfl, hn1, hn2, rfl⟩

theorem C7_error_propagates_witness :
    (∀ h ∈ [scenarioH1],
      ∃ r, invokeOne h [Value.vint 5] [("b", Value.vint 9)] = .ok r) ∧
    invokeOne errHandler [Value.vint 5] [("b", Value.vint 9)] =
      .error (.custom 7) ∧
    (notifySync ([scenarioH1] ++ errHandler :: [scenarioH2])
        [Value.vint 5] [("b", Value.vint 9)] none false).2 =
      .error (.custom 7) := by
  have hpre : ∀ h ∈ [scenarioH1],
      ∃ r, invokeOne h [Value.vint 5] [("b", Value.vint 9)] = .ok r := by
    intro h hm
    rw [List.mem_singleton] at hm
    subst hm
    exact ⟨HRes.sync (Value.vint 1), rfl⟩
  exact ⟨hpre, rfl,
    (C7_error_propagates [Value.vint 5] [("b", Value.vint 9)] none false
      [scenarioH1] [scenarioH2] errHandler (.custom 7) hpre rfl).1⟩

theorem coroIxsFrom_eq_nil {entries : List Entry}
    (h : ∀ e ∈ entries, e.isCoro = false) :
    ∀ i, coroIxsFrom entries i = [] := by
  induction entries with
  | nil => intro i; rfl
  | cons e es ih =>
      intro i
      unfold coroIxsFrom
      rw [h e (List.mem_cons_self _ _)]
      exact ih (fun x hx => h x (List.mem_cons_of_mem _ hx)) (i + 1)

/-- C8: an aggregator constructed from entries none of which is deferred is
already resolved at construction: `done` is true, `results` holds the
ordered tuple of the values, there are no pending positions, and awaiting it
suspends on nothing and yields the same tuple; likewise
`_create_async_results` with no awaitable returns an immediately fulfilled
future. -/
theorem C8_no_deferred_immediate (entries : List Entry) (concurrent : Bool)
    (h : ∀ e ∈ entries, e.isCoro = false) :
    (MR.init entries concurrent).done = true ∧
    (MR.init entries concurrent).results =
      some (entries.map Entry.resolved) ∧
    (MR.init entries concurrent).hasAsync = false ∧
    (MR.init entries concurrent).coroIxs = [] ∧
    ((MR.init entries concurrent).await1).map Prod.snd =
      .ok (entries.map Entry.resolved) ∧
    (∀ (vs : List Value) (sequential : Bool),
      createAsyncResults vs [] sequential = NotifyResult.resolved vs) := by
  have hix : coroIxsFrom entries 0 = [] := coroIxsFrom_eq_nil h 0
  have hinit : MR.init entries concurrent =
      { concurrent := concurrent, uresults := some entries, coroIxs := [],
        hasAsync := false, done := true,
        results := some (entries.map Entry.resolved) } := by
    unfold MR.init
    rw [hix]
    rfl
  rw [hinit]
  exact ⟨rfl, rfl, rfl, rfl, rfl, fun vs sequential => rfl⟩

theorem C8_no_deferred_immediate_witness :
    (∀ e ∈ [Entry.val (Value.vint 1), Entry.val (Value.vint 2)],
      e.isCoro = false) ∧
    (MR.init [Entry.val (Value.vint 1), Entry.val (Value.vint 2)] false).done =
      true ∧
    (MR.init [Entry.val (Value.vint 1), Entry.val (Value.vint 2)]
        false).results = some [Value.vint 1, Value.vint 2] := by
  have h : ∀ e ∈ [Entry.val (Value.vint 1), Entry.val (Value.vint 2)],
      e.isCoro = false := by decide
  have hc := C8_no_deferred_immediate
    [Entry.val (Value.vint 1), Entry.val (Value.vint 2)] false h
  exact ⟨h, hc.1, hc.2.1⟩

/-- C3: the claim fails on the code. Awaiting a `MultipleResults` a second
time raises AttributeError: `_completion_task` unconditionally executes
`del self._results` after the first await, and the second
`__await__`/`_completion_task` reads the deleted attribute. The first await
does return the frozen tuple. -/
theorem C3_second_await_attribute_error :
    awaitTwice
        (MR.init [Entry.val (Value.vint 1), Entry.coro (Value.vint 2)]
          false) =
      .error PyErr.attributeError ∧
    ((MR.init [Entry.val (Value.vint 1), Entry.coro (Value.vint 2)]
        false).await1).map Prod.snd =
      .ok [Value.vint 1, Value.vint 2] :=
  ⟨rfl, rfl⟩

/-- C5 counterexample: the claim is false as stated. An Executor whose
endpoint list holds an expired weak reference does not skip it: `run`
dereferences it to `None` and then raises TypeError (from
`inspect.signature(None)` or from calling `None`) instead of completing
without error. -/
theorem C5_expired_weak_raises :
    execAllEndpoints true false [Endpoint.weakRef none] [] [] =
      .error PyErr.typeError :=
  rfl

/-- C5 (amended): `run` dereferences weak endpoints — a live weak endpoint
behaves exactly like the plain callable it refers to — but an expired weak
endpoint is not skipped: it makes the whole run raise TypeError. -/
theorem C5_weak_deref_no_skip (adaptParams : Bool) (h : EHandler)
    (rest : List Endpoint) (args : List Value) (kwargs : Kwargs) :
    execLoop adaptParams (Endpoint.weakRef (some h) :: rest) args kwargs =
      execLoop adaptParams (Endpoint.strong h :: rest) args kwargs ∧
    (∀ post : List Endpoint,
      execLoop adaptParams (Endpoint.weakRef none :: post) args kwargs =
        .error PyErr.typeError) :=
  ⟨rfl, fun _ => rfl⟩

theorem C5_weak_deref_no_skip_witness :
    execLoop true (Endpoint.weakRef (some valEndpoint) :: []) [] [] =
      execLoop true (Endpoint.strong valEndpoint :: []) [] [] ∧
    execLoop true (Endpoint.weakRef none :: []) [] [] =
      .error PyErr.typeError :=
  ⟨(C5_weak_deref_no_skip true valEndpoint [] [] []).1,
   (C5_weak_deref_no_skip true valEndpoint [] [] []).2 []⟩

theorem exbind_ok {ε α β : Type} (a : α) (f : α → Except ε β) :
    Except.bind (Except.ok a) f = f a := rfl

theorem exbind_error {ε α β : Type} (e : ε) (f : α → Except ε β) :
    Except.bind (Except.error e) f = Except.error e := rfl

theorem exbindM_ok {ε α β : Type} (a : α) (f : α → Except ε β) :
    ((Except.ok a : Except ε α) >>= f) = f a := rfl

theorem exbindM_error {ε α β : Type} (e : ε) (f : α → Except ε β) :
    ((Except.error e : Except ε α) >>= f) = Except.error e := rfl

theorem exmap_ok {ε α β : Type} (f : α → β) (a : α) :
    Except.map f (Except.ok a : Except ε α) = Except.ok (f a) := rfl

theorem exmap_error {ε α β : Type} (f : α → β) (e : ε) :
    Except.map f (Except.error e : Except ε α) = Except.error e := rfl

theorem execLoop_cons (adaptParams : Bool) (ep : Endpoint)
    (rest : List Endpoint) (args : List Value) (kwargs : Kwargs) :
    execLoop adaptParams (ep :: rest) args kwargs =
      (invokeEndpoint adaptParams (derefEndpoint ep) args kwargs >>=
        fun res => spliceResult res >>= fun cur =>
          (fun others => cur ++ others) <$>
            execLoop adaptParams rest args kwargs) := rfl

theorem execLoop_append (adaptParams : Bool) (pre rest : List Endpoint)
    (args : List Value) (kwargs : Kwargs) :
    execLoop adaptParams (pre ++ rest) args kwargs =
      (execLoop adaptParams pre args kwargs).bind fun acc =>
        (execLoop adaptParams rest args kwargs).map fun r => acc ++ r := by
  induction pre with
  | nil =>
      show execLoop adaptParams rest args kwargs =
        Except.bind (Except.ok []) fun acc =>
          Except.map (fun r => acc ++ r)
            (execLoop adaptParams rest args kwargs)
      rw [exbind_ok]
      cases hr : execLoop adaptParams rest args kwargs with
      | error e => rw [exmap_error]
      | ok r => rw [exmap_ok]; simp
  | cons ep pre ih =>
      show execLoop adaptParams (ep :: (pre ++ rest)) args kwargs =
        Except.bind (execLoop adaptParams (ep :: pre) args kwargs) fun acc =>
          Except.map (fun r => acc ++ r)
            (execLoop adaptParams rest args kwargs)
      rw [execLoop_cons, execLoop_cons]
      cases hinv : invokeEndpoint adaptParams (derefEndpoint ep) args kwargs with
      | error e => simp [exbindM_error, exbind_error]
      | ok res =>
          cases hsp : spliceResult res with
          | error e => simp [hsp, exbindM_ok, exbindM_error, exbind_error]
          | ok cur =>
              simp only [hsp, exbindM_ok]
              rw [ih]
              cases hp : execLoop adaptParams pre args kwargs with
              | error e => simp [exbind_error]
              | ok acc =>
                  cases hr : execLoop adaptParams rest args kwargs with
                  | error e => simp [exbind_ok, exmap_error]
                  | ok r => simp [exbind_ok, exmap_ok, List.append_assoc]

theorem execLoop_cons_noRes {adaptParams : Bool} {ep : Endpoint}
    {args : List Value} {kwargs : Kwargs}
    (hinv : invokeEndpoint adaptParams (derefEndpoint ep) args kwargs =
      .ok ERes.noRes) (post : List Endpoint) :
    execLoop adaptParams (ep :: post) args kwargs =
      execLoop adaptParams post args kwargs := by
  rw [execLoop_cons, hinv, exbindM_ok]
  show (spliceResult ERes.noRes >>= fun cur =>
    (fun others => cur ++ others) <$> execLoop adaptParams post args kwargs) = _
  rw [show spliceResult ERes.noRes = .ok [] from rfl, exbindM_ok]
  cases hr : execLoop adaptParams post args kwargs with
  | error e => rfl
  | ok r => simp

theorem execLoop_cons_multi {adaptParams : Bool} {ep : Endpoint}
    {args : List Value} {kwargs : Kwargs} {m : MR} {vs : List Value}
    (hinv : invokeEndpoint adaptParams (derefEndpoint ep) args kwargs =
      .ok (ERes.multi m)) (hres : m.results = some vs)
    (post : List Endpoint) :
    execLoop adaptParams (ep :: post) args kwargs =
      (execLoop adaptParams post args kwargs).map fun r =>
        vs.map Entry.val ++ r := by
  rw [execLoop_cons, hinv, exbindM_ok]
  have hs : spliceResult (ERes.multi m) = .ok (vs.map Entry.val) := by
    simp [spliceResult, hres]
  rw [hs, exbindM_ok]
  cases hr : execLoop adaptParams post args kwargs with
  | error e => rw [exmap_error]; rfl
  | ok r => rw [exmap_ok]; rfl

theorem execLoop_cons_multi_pending {adaptParams : Bool} {ep : Endpoint}
    {args : List Value} {kwargs : Kwargs} {m : MR}
    (hinv : invokeEndpoint adaptParams (derefEndpoint ep) args kwargs =
      .ok (ERes.multi m)) (hres : m.results = none)
    (post : List Endpoint) :
    execLoop adaptParams (ep :: post) args kwargs =
      .error PyErr.typeError := by
  rw [execLoop_cons, hinv, exbindM_ok]
  have hs : spliceResult (ERes.multi m) = .error PyErr.typeError := by
    simp [spliceResult, hres]
  rw [hs, exbindM_error]

/-- C6 counterexample: the claim is false as stated. A handler returning a
`MultipleResults` that still holds a pending awaitable does not get its
entries spliced into the outer aggregation: its `results` attribute is still
`None`, so `results += res.results` raises TypeError. -/
theorem C6_pending_inner_raises :
    execAllEndpoints true false [Endpoint.strong multiPendingEndpoint] [] [] =
      .error PyErr.typeError :=
  rfl

/-- C6 (amended): a handler returning the `NoResult` sentinel contributes
nothing to the aggregated list; a handler returning an already-resolved
`MultipleResults` has its result entries spliced flat into the outer
aggregation; but a handler returning a still-unresolved `MultipleResults`
makes the run raise TypeError. -/
theorem C6_noresult_and_splice (adaptParams : Bool) (args : List Value)
    (kwargs : Kwargs) (pre post : List Endpoint) (ep : Endpoint) :
    (invokeEndpoint adaptParams (derefEndpoint ep) args kwargs =
        .ok ERes.noRes →
      execLoop adaptParams (pre ++ ep :: post) args kwargs =
        execLoop adaptParams (pre ++ post) args kwargs) ∧
    (∀ (m : MR) (vs : List Value) (acc1 acc2 : List Entry),
      invokeEndpoint adaptParams (derefEndpoint ep) args kwargs =
        .ok (ERes.multi m) →
      m.results = some vs →
      execLoop adaptParams pre args kwargs = .ok acc1 →
      execLoop adaptParams post args kwargs = .ok acc2 →
      execLoop adaptParams (pre ++ ep :: post) args kwargs =
        .ok (acc1 ++ vs.map Entry.val ++ acc2)) ∧
    (∀ (m : MR) (acc : List Entry),
      invokeEndpoint adaptParams (derefEndpoint ep) args kwargs =
        .ok (ERes.multi m) →
      m.results = none →
      execLoop adaptParams pre args kwargs = .ok acc →
      execLoop adaptParams (pre ++ ep :: post) args kwargs =
        .error PyErr.typeError) := by
  refine ⟨fun hinv => ?_, fun m vs acc1 acc2 hinv hres hp hq => ?_,
    fun m acc hinv hres hp => ?_⟩
  · rw [execLoop_append, execLoop_append, execLoop_cons_noRes hinv]
  · rw [execLoop_append, hp, execLoop_cons_multi hinv hres, hq]
    simp [Except.bind, Except.map, List.append_assoc]
  · rw [execLoop_append, hp, execLoop_cons_multi_pending hinv hres]
    rfl

theorem C6_noresult_and_splice_witness :
    invokeEndpoint true (derefEndpoint (Endpoint.strong noResEndpoint)) [] [] =
      .ok ERes.noRes ∧
    execLoop true ([Endpoint.strong valEndpoint] ++
        Endpoint.strong noResEndpoint :: []) [] [] =
      execLoop true ([Endpoint.strong valEndpoint] ++ []) [] [] ∧
    execLoop true ([Endpoint.strong valEndpoint] ++
        Endpoint.strong multiDoneEndpoint :: []) [] [] =
      .ok ([Entry.val (Value.vint 9)] ++
        [Value.vint 3].map Entry.val ++ []) ∧
    execLoop true ([Endpoint.strong valEndpoint] ++
        Endpoint.strong multiPendingEndpoint :: []) [] [] =
      .error PyErr.typeError := by
  refine ⟨rfl, ?_, ?_, ?_⟩
  · exact (C6_noresult_and_splice true [] [] [Endpoint.strong valEndpoint]
      [] (Endpoint.strong noResEndpoint)).1 rfl
  · exact (C6_noresult_and_splice true [] [] [Endpoint.strong valEndpoint]
      [] (Endpoint.strong multiDoneEndpoint)).2.1 _ [Value.vint 3]
      [Entry.val (Value.vint 9)] [] rfl rfl rfl rfl
  · exact (C6_noresult_and_splice true [] [] [Endpoint.strong valEndpoint]
      [] (Endpoint.strong multiPendingEndpoint)).2.2 _
      [Entry.val (Value.vint 9)] rfl rfl rfl

theorem C10_control_kwargs_consumed_witness :
    notifyModel [scenarioH1] [Value.vint 5]
        [("run_async", Value.vbool true), ("b", Value.vint 9)] none false =
      notifySync [scenarioH1] [Value.vint 5]
        (stripControls [("run_async", Value.vbool true), ("b", Value.vint 9)])
        none false ∧
    "run_async" ∉
      (stripControls
        [("run_async", Value.vbool true), ("b", Value.vint 9)]).map
        Prod.fst :=
  ⟨(C10_control_kwargs_consumed [scenarioH1] [Value.vint 5]
      [("run_async", Value.vbool true), ("b", Value.vint 9)] none false).1,
   (C10_control_kwargs_consumed [scenarioH1] [Value.vint 5]
      [("run_async", Value.vbool true), ("b", Value.vint 9)] none false).2.2
     "run_async" (List.mem_cons_of_mem _ (List.mem_cons_of_mem _
       (List.mem_cons_of_mem _ (List.mem_cons_of_mem _
         (List.mem_cons_self _ _)))))⟩

end MPSignal
